import Mathlib

set_option linter.unusedVariables false

/-!
Shallow embedding of the text-rendering core of `writer.py` (the `Writer`
class and the module-level `_get_char_addr` helper), together with the parts
of the display contract (`ILI9341.pixel` / `ILI9341.fill`) that the writer
invokes.  Byte tables are modelled as `List Nat`; Python list indexing
(including negative indices and `IndexError`) is modelled by `pyGet`
returning an `Option`.  Fallible computations return `Option`; display
side effects are modelled as an explicit event trace.
-/

namespace Writerpy

/-- Python sequence indexing `b[i]`: negative indices count from the end,
out-of-range access raises (modelled as `none`). -/
def pyGet (b : List Nat) (i : Int) : Option Nat :=
  let j : Int := if i < 0 then i + b.length else i
  if 0 ≤ j ∧ j < (b.length : Int) then b[j.toNat]? else none

/-- Font header offsets, from the `const` declarations in writer.py. -/
def TWO_BYTE_INDEX : Nat := 0
def ONE_BYTE_INDEX : Nat := 1
def MAX_CHARS : Int := 2
def HEIGHT : Int := 3
def WIDTH : Int := 4
def MISSING : Int := 5
def LAST_CHAR : Int := 7

/-- Guard-and-substitute step shared verbatim by both branches of
`_get_char_addr` and by `_char_width`:
`if letter >= font[_LAST_CHAR] or letter < font[_MISSING + 2]: letter = font[_MISSING]`.
The `or` short-circuits, so `font[_MISSING + 2]` is only read when the first
disjunct is false. -/
def substMissing (font : List Nat) (letter : Int) : Option Int := do
  let last ← pyGet font LAST_CHAR
  if (last : Int) ≤ letter then
    let m ← pyGet font MISSING
    pure (m : Int)
  else
    let first ← pyGet font (MISSING + 2)
    if letter < (first : Int) then
      let m ← pyGet font MISSING
      pure (m : Int)
    else
      pure letter

/-- Final return expression of `_get_char_addr`:
`offset + index + 1 + (font[_LAST_CHAR] - font[_MISSING + 2]) * (font[font[_MAX_CHARS]] == _TWO_BYTE_INDEX)`. -/
def finishAddr (font : List Nat) (offset index : Int) : Option Int := do
  let last ← pyGet font LAST_CHAR
  let first ← pyGet font (MISSING + 2)
  let base ← pyGet font MAX_CHARS
  let mode ← pyGet font (base : Int)
  pure (offset + index + 1 +
    ((last : Int) - (first : Int)) * (if mode = TWO_BYTE_INDEX then 1 else 0))

/-- Embedding of the module-level `_get_char_addr(font, letter)`. -/
def _get_char_addr (font : List Nat) (letter : Int) : Option Int := do
  let index ← pyGet font MAX_CHARS
  let mode ← pyGet font (index : Int)
  if mode = TWO_BYTE_INDEX then
    let index : Int := (index : Int) + 1
    let letter ← substMissing font letter
    let first ← pyGet font (MISSING + 2)
    let letter : Int := letter - first
    let idx : Int := index + letter * 2
    let hi ← pyGet font idx
    let lo ← pyGet font (idx + 1)
    finishAddr font ((Nat.lor (hi <<< 8) lo : Nat) : Int) index
  else
    let index : Int := (index : Int) + 1
    let letter ← substMissing font letter
    let first ← pyGet font (MISSING + 2)
    let letter : Int := letter - first
    let idx : Int := index + letter
    let offset ← pyGet font idx
    finishAddr font (offset : Int) index

/-! Display model.  The writer only ever calls `device.pixel(x, y, color)`
(from inside `draw_char`) and `device.fill(color)` (from `clear_screen`,
guarded by `hasattr(device, 'fill')`); `ILI9341` implements both, `fill`
covering the whole `width × height` surface.  A run is recorded as a trace
of these calls. -/

/-- One display call issued by the writer. -/
inductive Ev where
  | pixel (x y : Int) (color : Nat)
  | fill (color : Nat)
deriving Repr, DecidableEq

/-- Return value of `draw_char`: Python returns `True` for an empty
definition (`offset == 0`) and the width otherwise. -/
inductive DrawResult where
  | emptyGlyph
  | width (w : Nat)
deriving Repr, DecidableEq

/-- Truthiness of `b & (1 << k)` in the font byte tests. -/
def bitSet (b k : Nat) : Bool := b &&& (1 <<< k) != 0

/-- The bit `draw_char` consults for source cell `(row, col)`, as the code
reads it: in landscape mode `fnt[offset + (row*width+col)//8] & (1 << (col % 8))`,
otherwise `fnt[offset + (col*height+row)//8] & (1 << (row % 8))`. -/
def bitAtCode (font : List Nat) (off : Int) (h w : Nat) (landscape : Bool)
    (row col : Nat) : Option Bool :=
  if landscape then
    (pyGet font (off + ((row * w + col) / 8 : Nat))).map
      (fun b => bitSet b (col % 8))
  else
    (pyGet font (off + ((col * h + row) / 8 : Nat))).map
      (fun b => bitSet b (row % 8))

/-- Destination pixel of source cell `(row, col)` for a glyph of width `w`
drawn at `(x, y)`: `(x + row, y + width - col - 1)` in landscape mode,
`(x + col, y + row)` otherwise, as in the `_display.pixel` calls. -/
def target (x y : Int) (w : Nat) (landscape : Bool) (row col : Nat) :
    Int × Int :=
  if landscape then (x + row, y + (w : Int) - col - 1) else (x + col, y + row)

/-- One iteration of the inner loop of `draw_char` for source cell
`(row, col)`: read the glyph bit (`bitAtCode`), then write the foreground
color at the cell's destination if it is set, the background color if one
is configured, and nothing otherwise. -/
def drawCell (font : List Nat) (off : Int) (h w : Nat) (x y : Int)
    (color : Nat) (bgcolor : Option Nat) (landscape : Bool)
    (row col : Nat) : Option (List Ev) := do
  let bit ← bitAtCode font off h w landscape row col
  if bit then
    pure [Ev.pixel (target x y w landscape row col).1
      (target x y w landscape row col).2 color]
  else
    match bgcolor with
    | some bg => pure [Ev.pixel (target x y w landscape row col).1
        (target x y w landscape row col).2 bg]
    | none => pure []

/-- Option-valued `mapM`, written by recursion so proofs can follow it. -/
def optMapM (f : α → Option β) : List α → Option (List β)
  | [] => some []
  | a :: l => do
    let b ← f a
    let bs ← optMapM f l
    pure (b :: bs)

/-- Row-major enumeration of the glyph cells, matching
`for row in range(height): for col in range(width)`. -/
def cellList (h w : Nat) : List (Nat × Nat) :=
  (List.range h).flatMap (fun row => (List.range w).map (fun col => (row, col)))

/-- The nested pixel loops of `draw_char`. -/
def drawGlyph (font : List Nat) (off : Int) (h w : Nat) (x y : Int)
    (color : Nat) (bgcolor : Option Nat) (landscape : Bool) :
    Option (List Ev) := do
  let evss ← optMapM
    (fun rc => drawCell font off h w x y color bgcolor landscape rc.1 rc.2)
    (cellList h w)
  pure evss.flatten

/-- Embedding of `Writer.draw_char`.  The `_display` argument becomes the
event trace in the result; the `_reverse` argument is accepted and ignored,
as in the source. -/
def draw_char (char_code x y : Int) (font : List Nat) (color : Nat)
    (bgcolor : Option Nat) (landscape : Bool) (rev : Bool) :
    Option (List Ev × DrawResult) := do
  let height ← pyGet font HEIGHT
  let offset ← _get_char_addr font char_code
  if offset = 0 then
    pure ([], DrawResult.emptyGlyph)
  else
    let width ← pyGet font offset
    let evs ← drawGlyph font (offset + 1) height width x y color bgcolor landscape
    pure (evs, DrawResult.width width)

/-- Device capabilities the writer consults: dimensions and whether a
`fill` method exists (`hasattr(self.device, 'fill')`). -/
structure Device where
  width : Int
  height : Int
  hasFill : Bool
deriving Repr, DecidableEq

/-- Writer fields that `_printchar` reads but never writes. -/
structure WriterCfg where
  device : Device
  font : List Nat
  text_color : Nat
  bgcolor : Option Nat
  landscape : Bool
  rev : Bool
  map_space : Bool
  height : Nat
deriving Repr, DecidableEq

/-- Mutable cursor state: `self.x`, `self.y`. -/
structure WriterState where
  x : Int
  y : Int
deriving Repr, DecidableEq

/-- Embedding of `Writer.clear_screen`. -/
def clear_screen (cfg : WriterCfg) : WriterState × List Ev :=
  (⟨0, 0⟩, if cfg.device.hasFill then [Ev.fill (cfg.bgcolor.getD 0)] else [])

/-- Embedding of `Writer._char_width`. -/
def _char_width (font : List Nat) (map_space : Bool) (char_code : Int) :
    Option Nat := do
  let a ← _get_char_addr font char_code
  if a = 0 then
    pure 0
  else
    let c1 : Int := if map_space ∧ char_code = 32 then 48 else char_code
    let c2 ← substMissing font c1
    let a2 ← _get_char_addr font c2
    pyGet font (a2 - 1)

/-- Wrap-and-scroll block at the head of `_printchar`:
`if self.x + width > self.device.width: self.x = 0; self.y += self.height;`
`if self.y >= self.device.height: self.clear_screen()`. -/
def wrapStep (cfg : WriterCfg) (s : WriterState) (width : Nat) :
    WriterState × List Ev :=
  if s.x + width > cfg.device.width then
    let sW : WriterState := ⟨0, s.y + cfg.height⟩
    if sW.y ≥ cfg.device.height then clear_screen cfg else (sW, [])
  else (s, [])

/-- Embedding of `Writer._printchar`.  The result carries the new cursor
state, the display-call trace, and the `(x, y)` at which `draw_char` was
invoked (`none` when the character was consumed without drawing). -/
def _printchar (cfg : WriterCfg) (s : WriterState) (char_code : Int) :
    Option (WriterState × List Ev × Option (Int × Int)) := do
  let width ← _char_width cfg.font cfg.map_space char_code
  if width = 0 then
    pure (s, [], none)
  else
    let (s1, evClear) := wrapStep cfg s width
    if s1.y + (cfg.height : Int) < 0 then
      pure (s1, evClear, none)
    else if s1.y ≥ cfg.device.height then
      pure (s1, evClear, none)
    else
      let (evs, _r) ← draw_char char_code s1.x s1.y cfg.font cfg.text_color
        cfg.bgcolor cfg.landscape cfg.rev
      pure (⟨s1.x + width, s1.y⟩, evClear ++ evs, some (s1.x, s1.y))

/-- Embedding of `Writer.printstring`; also collects, per drawn character,
the `(char_code, x, y)` of its `draw_char` invocation. -/
def printstring (cfg : WriterCfg) (s : WriterState) :
    List Int → Option (WriterState × List Ev × List (Int × Int × Int))
  | [] => some (s, [], [])
  | c :: rest => do
    let (s1, evs1, d1) ← _printchar cfg s c
    let (s2, evs2, ds) ← printstring cfg s1 rest
    pure (s2, evs1 ++ evs2,
      (match d1 with | some (dx, dy) => [(c, dx, dy)] | none => []) ++ ds)

/-- Embedding of `Writer.stringlen` (left-fold accumulation `l += ...`). -/
def stringlenAux (font : List Nat) (map_space : Bool) (acc : Nat) :
    List Int → Option Nat
  | [] => some acc
  | c :: rest => do
    let w ← _char_width font map_space c
    stringlenAux font map_space (acc + w) rest

/-- Embedding of `Writer.stringlen`. -/
def stringlen (font : List Nat) (map_space : Bool) (s : List Int) :
    Option Nat :=
  stringlenAux font map_space 0 s

/-! Observation helpers used to state claims about `draw_char`. -/

/-- Rotated-orientation bit addressing as the specification words it:
"bit index = row*w + col", i.e. byte `(row*w + col) / 8` and bit position
`(row*w + col) % 8` inside it.  Kept separate from `bitAtCode`, which
follows the source, to compare the two. -/
def bitAtRotatedSpec (font : List Nat) (off : Int) (w : Nat)
    (row col : Nat) : Option Bool :=
  (pyGet font (off + ((row * w + col) / 8 : Nat))).map
    (fun b => bitSet b ((row * w + col) % 8))

/-- Effect of one display call on a surface modelled as a total pixel map. -/
def applyEv (surf : Int × Int → Nat) : Ev → (Int × Int → Nat)
  | Ev.pixel px py c => fun p => if p = (px, py) then c else surf p
  | Ev.fill c => fun _ => c

/-- Effect of a whole trace of display calls, first call applied first. -/
def applyEvs (surf : Int × Int → Nat) (evs : List Ev) : Int × Int → Nat :=
  evs.foldl applyEv surf

/-- A surface uniformly pre-filled with RGB565 red (0xF800). -/
def surfRed : Int × Int → Nat := fun _ => 63488

/-! Concrete font fixtures, all in one-byte-index mode.  Layout:
byte 2 = 8 (directory base), byte 3 = font height, byte 4 = max width,
byte 5 = missing code 0, byte 7 = last char 0, byte 8 = 1 (one-byte index),
byte 9 = stored offset 1, so the resolved address is 1 + 9 + 1 = 11;
byte 10 is the width byte `_char_width` reads, byte 11 the byte `draw_char`
reads as width, bytes from 12 the packed bitmap. -/

/-- Fixture with height 8, `_char_width` 6, `draw_char` width byte 2 and an
all-zero bitmap. -/
def F1 : List Nat := [0, 0, 8, 8, 6, 0, 0, 0, 1, 1, 6, 2, 0, 0]

/-- Fixture with height 7 and width byte 5 at the resolved address, whose
first bitmap byte is 1 (only bit 0 set). -/
def F2 : List Nat := [0, 0, 8, 7, 5, 0, 0, 0, 1, 1, 5, 5, 1, 0, 0, 0, 0]

/-- Fixture like `F1` but with `_char_width` byte 0. -/
def F3 : List Nat := [0, 0, 8, 8, 6, 0, 0, 0, 1, 1, 0, 2, 0, 0]

/-- A 240 × 8 display with a `fill` method. -/
def dev1 : Device := ⟨240, 8, true⟩

/-- A 240 × 320 display with a `fill` method. -/
def dev2 : Device := ⟨240, 320, true⟩

/-- Writer over `F1` on the short display, transparent background. -/
def cfg1 : WriterCfg := ⟨dev1, F1, 7, none, false, false, true, 8⟩

/-- Writer over `F1` on the tall display, transparent background. -/
def cfg2 : WriterCfg := ⟨dev2, F1, 7, none, false, false, true, 8⟩

/-- Writer over `F3` on the tall display. -/
def cfg3 : WriterCfg := ⟨dev2, F3, 7, none, false, false, true, 8⟩

/-! Sanity checks of the embedding on the fixtures. -/

example : _get_char_addr F1 65 = some 11 := by decide
example : _get_char_addr F1 300 = some 11 := by decide
example : _char_width F1 true 65 = some 6 := by decide
example : _char_width F1 true 32 = some 6 := by decide
example : draw_char 65 0 0 F1 7 none false false =
    some ([], DrawResult.width 2) := by decide
example : _printchar cfg1 ⟨238, 0⟩ 65 =
    some (⟨6, 0⟩, [Ev.fill 0], some (0, 0)) := by decide
example : _printchar cfg2 ⟨238, 0⟩ 65 =
    some (⟨6, 8⟩, [], some (0, 8)) := by decide
example : printstring cfg1 ⟨238, 0⟩ [65, 66] =
    some (⟨12, 0⟩, [Ev.fill 0], [(65, 0, 0), (66, 6, 0)]) := by decide
example : draw_char 65 10 10 F2 7 none true false =
    some ([Ev.pixel 10 14 7, Ev.pixel 11 14 7], DrawResult.width 5) := by
  decide
example : _char_width F3 true 65 = some 0 := by decide
example : _printchar cfg3 ⟨5, 7⟩ 65 = some (⟨5, 7⟩, [], none) := by decide
example : stringlen F1 true [32] = some 6 := by decide

/-! Reduction lemmas for the `Option` monad operations used in the
embedding. -/

/-- Reduction of the monadic bind on `Option` at a `some`. -/
theorem bindSome (a : α) (f : α → Option β) : (some a >>= f) = f a := rfl

/-- Reduction of the monadic bind on `Option` at a `none`. -/
theorem bindNone (f : α → Option β) : ((none : Option α) >>= f) = none := rfl

/-- Monadic `pure` on `Option` is `some`. -/
theorem pureSome (a : α) : (pure a : Option α) = some a := rfl

/-! Structural lemmas about address resolution.  In this source,
`_MISSING + 2 = 7 = _LAST_CHAR`: the "first char" byte the guard reads is
the same byte as the "last char" bound, so the guard
`letter >= font[7] or letter < font[7]` always fires and every letter is
replaced by the missing-glyph code `font[_MISSING]`. -/

theorem substMissing_eq (font : List Nat) (letter : Int) :
    substMissing font letter =
      (pyGet font LAST_CHAR).bind
        (fun _ => (pyGet font MISSING).bind (fun m => some ((m : Nat) : Int))) := by
  unfold substMissing
  cases h : pyGet font LAST_CHAR with
  | none => simp
  | some f7 =>
    have h72 : pyGet font (MISSING + 2) = some f7 := by
      have h2 : (MISSING + 2 : Int) = LAST_CHAR := by decide
      rw [h2]; exact h
    by_cases hc : (f7 : Int) ≤ letter
    · cases hm : pyGet font MISSING <;> simp [hc, hm]
    · have hlt : letter < (f7 : Int) := lt_of_not_le hc
      cases hm : pyGet font MISSING <;> simp [hc, h72, hm, hlt]

/-- The substitution step does not depend on the incoming letter. -/
theorem substMissing_const (font : List Nat) (l1 l2 : Int) :
    substMissing font l1 = substMissing font l2 := by
  rw [substMissing_eq, substMissing_eq]

/-- Glyph-address resolution does not depend on the requested character:
every code is substituted by the missing code before the table walk. -/
theorem get_char_addr_const (font : List Nat) (l1 l2 : Int) :
    _get_char_addr font l1 = _get_char_addr font l2 := by
  unfold _get_char_addr
  simp only [substMissing_eq]

/-- Successful address resolution exposes the header reads it performed and
bounds the result: the returned address is the stored (non-negative) offset
plus `font[_MAX_CHARS] + 2`, because the correction term
`(font[_LAST_CHAR] - font[_MISSING + 2])` is the difference of the same
byte with itself. -/
theorem get_char_addr_inv (font : List Nat) (letter r : Int)
    (h : _get_char_addr font letter = some r) :
    ∃ base f7 m : Nat, pyGet font MAX_CHARS = some base ∧
      pyGet font LAST_CHAR = some f7 ∧ pyGet font MISSING = some m ∧
      (base : Int) + 2 ≤ r := by
  have h72 : pyGet font (MISSING + 2) = pyGet font LAST_CHAR := by
    have h2 : (MISSING + 2 : Int) = LAST_CHAR := by decide
    rw [h2]
  unfold _get_char_addr finishAddr at h
  simp only [substMissing_eq, h72] at h
  cases hb : pyGet font MAX_CHARS with
  | none => simp [hb, bindNone] at h
  | some base =>
    simp only [hb, bindSome] at h
    cases hmo : pyGet font (base : Int) with
    | none => simp [hmo, bindNone] at h
    | some mode =>
      simp only [hmo, bindSome] at h
      cases h7 : pyGet font LAST_CHAR with
      | none => simp [h7, bindNone] at h
      | some f7 =>
        simp only [h7, bindSome, Option.some_bind] at h
        cases h5 : pyGet font MISSING with
        | none => simp [h5, bindNone] at h
        | some m =>
          simp only [h5, bindSome, Option.some_bind, sub_self, zero_mul,
            add_zero] at h
          refine ⟨base, f7, m, rfl, rfl, rfl, ?_⟩
          by_cases hmode : mode = TWO_BYTE_INDEX
          · rw [if_pos hmode] at h
            cases hhi : pyGet font ((base : Int) + 1 + (((m : Nat) : Int) - ((f7 : Nat) : Int)) * 2) with
            | none => simp [hhi, bindNone] at h
            | some hi =>
              simp only [hhi, bindSome] at h
              cases hlo : pyGet font ((base : Int) + 1 + (((m : Nat) : Int) - ((f7 : Nat) : Int)) * 2 + 1) with
              | none => simp [hlo, bindNone] at h
              | some lo =>
                simp only [hlo, bindSome, pureSome, Option.some.injEq] at h
                omega
          · rw [if_neg hmode] at h
            cases hoff : pyGet font ((base : Int) + 1 + (((m : Nat) : Int) - ((f7 : Nat) : Int))) with
            | none => simp [hoff, bindNone] at h
            | some off =>
              simp only [hoff, bindSome, pureSome, Option.some.injEq] at h
              omega

/-- Any successfully resolved glyph address is at least 2, hence nonzero. -/
theorem get_char_addr_pos (font : List Nat) (letter r : Int)
    (h : _get_char_addr font letter = some r) : 2 ≤ r := by
  obtain ⟨base, _, _, _, _, _, hge⟩ := get_char_addr_inv font letter r h
  omega

/-- Whenever address resolution succeeds, `_char_width` returns the byte
one before the resolved address, independently of `map_space` and of the
requested character. -/
theorem char_width_eq (font : List Nat) (ms : Bool) (c : Int) (a : Int)
    (hc : _get_char_addr font c = some a) :
    _char_width font ms c = pyGet font (a - 1) := by
  obtain ⟨base, f7, m, hb, h7, h5, hge⟩ := get_char_addr_inv font c a hc
  have ha0 : ¬ a = 0 := by omega
  have hsub : ∀ l : Int, substMissing font l = some (m : Int) := by
    intro l
    rw [substMissing_eq, h7, h5]
    rfl
  unfold _char_width
  rw [hc]
  simp only [bindSome, if_neg ha0]
  rw [hsub]
  simp only [bindSome]
  rw [get_char_addr_const font _ c, hc]
  simp [bindSome]

/-- The width `_char_width` resolves does not depend on the character or
the `map_space` flag (every code resolves through the missing glyph). -/
theorem char_width_const (font : List Nat) (ms1 ms2 : Bool) (c1 c2 : Int) :
    _char_width font ms1 c1 = _char_width font ms2 c2 := by
  cases h : _get_char_addr font c1 with
  | none =>
    have h2 : _get_char_addr font c2 = none :=
      (get_char_addr_const font c2 c1).trans h
    unfold _char_width
    rw [h, h2]
    simp only [bindNone]
  | some a =>
    have h2 : _get_char_addr font c2 = some a :=
      (get_char_addr_const font c2 c1).trans h
    rw [char_width_eq font ms1 c1 a h, char_width_eq font ms2 c2 a h2]

/-! Structural lemmas about the rasterizer. -/

/-- Inversion of a successful `draw_char` run: the header reads it made
and the glyph loop output.  The empty-definition early return never
fires, because resolved addresses are at least 2. -/
theorem draw_char_inv (cc x y : Int) (font : List Nat) (color : Nat)
    (bg : Option Nat) (ls rv : Bool) (evs : List Ev) (res : DrawResult)
    (h : draw_char cc x y font color bg ls rv = some (evs, res)) :
    ∃ (hgt w : Nat) (a : Int),
      pyGet font HEIGHT = some hgt ∧ _get_char_addr font cc = some a ∧
      (2 : Int) ≤ a ∧ pyGet font a = some w ∧
      drawGlyph font (a + 1) hgt w x y color bg ls = some evs ∧
      res = DrawResult.width w := by
  unfold draw_char at h
  cases hh : pyGet font HEIGHT with
  | none => simp [hh, bindNone] at h
  | some hgt =>
    simp only [hh, bindSome] at h
    cases ha : _get_char_addr font cc with
    | none => simp [ha, bindNone] at h
    | some a =>
      have ha2 : (2 : Int) ≤ a := get_char_addr_pos font cc a ha
      have ha0 : ¬ a = 0 := by omega
      simp only [ha, bindSome, if_neg ha0] at h
      cases hw : pyGet font a with
      | none => simp [hw, bindNone] at h
      | some w =>
        simp only [hw, bindSome] at h
        cases hg : drawGlyph font (a + 1) hgt w x y color bg ls with
        | none => simp [hg, bindNone] at h
        | some evs0 =>
          simp only [hg, bindSome, pureSome, Option.some.injEq,
            Prod.mk.injEq] at h
          obtain ⟨h1, h2⟩ := h
          exact ⟨hgt, w, a, rfl, rfl, ha2, hw, h1 ▸ hg, h2.symm⟩

/-- With a transparent background, one cell iteration either emits exactly
the foreground pixel at the cell's destination (bit set) or emits
nothing (bit unset). -/
theorem drawCell_none_cases (font : List Nat) (off : Int) (h w : Nat)
    (x y : Int) (fg : Nat) (ls : Bool) (row col : Nat) (evs : List Ev)
    (hc : drawCell font off h w x y fg none ls row col = some evs) :
    (bitAtCode font off h w ls row col = some true ∧
      evs = [Ev.pixel (target x y w ls row col).1
        (target x y w ls row col).2 fg])
    ∨ (bitAtCode font off h w ls row col = some false ∧ evs = []) := by
  unfold drawCell at hc
  cases hbit : bitAtCode font off h w ls row col with
  | none => simp [hbit, bindNone] at hc
  | some b =>
    simp only [hbit, bindSome] at hc
    cases b with
    | true =>
      rw [if_pos rfl] at hc
      simp only [pureSome, Option.some.injEq] at hc
      exact Or.inl ⟨rfl, hc.symm⟩
    | false =>
      rw [if_neg (by simp)] at hc
      simp only [pureSome, Option.some.injEq] at hc
      exact Or.inr ⟨rfl, hc.symm⟩

/-- An element of the flattened output of `optMapM` comes from the output
of `f` at some element of the input list. -/
theorem optMapM_mem {α β : Type} {f : α → Option (List β)} {l : List α}
    {bs : List (List β)} (h : optMapM f l = some bs) {ev : β}
    (hev : ev ∈ bs.flatten) :
    ∃ a ∈ l, ∃ evs, f a = some evs ∧ ev ∈ evs := by
  induction l generalizing bs with
  | nil =>
    unfold optMapM at h
    simp only [Option.some.injEq] at h
    subst h
    simp at hev
  | cons a t ih =>
    unfold optMapM at h
    cases hfa : f a with
    | none => simp [hfa, bindNone] at h
    | some b =>
      simp only [hfa, bindSome] at h
      cases hrest : optMapM f t with
      | none => simp [hrest, bindNone] at h
      | some bs' =>
        simp only [hrest, bindSome, pureSome, Option.some.injEq] at h
        subst h
        simp only [List.flatten_cons, List.mem_append] at hev
        cases hev with
        | inl hl => exact ⟨a, List.mem_cons_self a t, b, hfa, hl⟩
        | inr hr =>
          obtain ⟨a', ha', evs', hf', hm'⟩ := ih hrest hr
          exact ⟨a', List.mem_cons_of_mem a ha', evs', hf', hm'⟩

/-- Cells enumerated by the glyph loops are inside the glyph bounds. -/
theorem cellList_mem {h w : Nat} {rc : Nat × Nat} (hm : rc ∈ cellList h w) :
    rc.1 < h ∧ rc.2 < w := by
  unfold cellList at hm
  simp only [List.mem_flatMap, List.mem_map, List.mem_range] at hm
  obtain ⟨row, hrow, col, hcol, hrc⟩ := hm
  subst hrc
  exact ⟨hrow, hcol⟩

/-- Every display call of a transparent-background glyph draw is a
foreground pixel at the destination of an in-bounds cell whose stored bit
is set. -/
theorem drawGlyph_none_mem (font : List Nat) (off : Int) (h w : Nat)
    (x y : Int) (fg : Nat) (ls : Bool) (evs : List Ev)
    (hg : drawGlyph font off h w x y fg none ls = some evs) :
    ∀ ev ∈ evs, ∃ row col : Nat, row < h ∧ col < w ∧
      bitAtCode font off h w ls row col = some true ∧
      ev = Ev.pixel (target x y w ls row col).1
        (target x y w ls row col).2 fg := by
  intro ev hev
  unfold drawGlyph at hg
  cases hm : optMapM
      (fun rc => drawCell font off h w x y fg none ls rc.1 rc.2)
      (cellList h w) with
  | none => simp [hm, bindNone] at hg
  | some evss =>
    simp only [hm, bindSome, pureSome, Option.some.injEq] at hg
    subst hg
    obtain ⟨rc, hrc, evs', hf', hm'⟩ := optMapM_mem hm hev
    obtain ⟨hrow, hcol⟩ := cellList_mem hrc
    cases drawCell_none_cases font off h w x y fg ls rc.1 rc.2 evs' hf' with
    | inl hset =>
      obtain ⟨hbit, hevs⟩ := hset
      subst hevs
      simp only [List.mem_singleton] at hm'
      exact ⟨rc.1, rc.2, hrow, hcol, hbit, hm'⟩
    | inr hunset =>
      obtain ⟨_, hevs⟩ := hunset
      subst hevs
      simp at hm'

/-- Distinct in-bounds cells land on distinct destination pixels. -/
theorem target_inj (x y : Int) (w : Nat) (ls : Bool) (r1 c1 r2 c2 : Nat)
    (ht : target x y w ls r1 c1 = target x y w ls r2 c2) :
    r1 = r2 ∧ c1 = c2 := by
  cases ls <;> simp [target, Prod.ext_iff] at ht <;> omega

/-! Computation lemmas for `_printchar`. -/

/-- When the resolved width is nonzero and neither clip test fires,
`_printchar` draws at the post-wrap position and advances the pen. -/
theorem printchar_draw (cfg : WriterCfg) (s : WriterState) (c : Int)
    (w : Nat) (s1x s1y : Int) (evC : List Ev)
    (hw : _char_width cfg.font cfg.map_space c = some w) (hw0 : w ≠ 0)
    (hws : wrapStep cfg s w = (⟨s1x, s1y⟩, evC))
    (hclip1 : ¬ s1y + (cfg.height : Int) < 0)
    (hclip2 : ¬ s1y ≥ cfg.device.height) :
    _printchar cfg s c =
      (draw_char c s1x s1y cfg.font cfg.text_color cfg.bgcolor
          cfg.landscape cfg.rev).map
        (fun er => (⟨s1x + w, s1y⟩, evC ++ er.1, some (s1x, s1y))) := by
  unfold _printchar
  rw [hw]
  simp only [bindSome, if_neg hw0, hws]
  rw [if_neg hclip1, if_neg hclip2]
  cases hd : draw_char c s1x s1y cfg.font cfg.text_color cfg.bgcolor
      cfg.landscape cfg.rev with
  | none => simp [hd, bindNone]
  | some er =>
    cases er with
    | mk evs0 r0 => simp [hd, bindSome]

/-- When the resolved width is nonzero and a clip test fires, `_printchar`
keeps the post-wrap state, emits only the wrap events and draws nothing. -/
theorem printchar_clipped (cfg : WriterCfg) (s : WriterState) (c : Int)
    (w : Nat) (s1x s1y : Int) (evC : List Ev)
    (hw : _char_width cfg.font cfg.map_space c = some w) (hw0 : w ≠ 0)
    (hws : wrapStep cfg s w = (⟨s1x, s1y⟩, evC))
    (hclip : s1y + (cfg.height : Int) < 0 ∨ s1y ≥ cfg.device.height) :
    _printchar cfg s c = some (⟨s1x, s1y⟩, evC, none) := by
  unfold _printchar
  rw [hw]
  simp only [bindSome, if_neg hw0, hws]
  by_cases hclip1 : s1y + (cfg.height : Int) < 0
  · rw [if_pos hclip1]
    rfl
  · rw [if_neg hclip1]
    have hclip2 : s1y ≥ cfg.device.height := hclip.resolve_left hclip1
    rw [if_pos hclip2]
    rfl

/-- A pixel that no call in the trace writes keeps its surface value;
requires in particular that the trace contains no `fill`. -/
theorem applyEvs_not_written (surf : Int × Int → Nat) (evs : List Ev)
    (p : Int × Int)
    (hp : ∀ ev ∈ evs, ∃ px py c, ev = Ev.pixel px py c ∧ (px, py) ≠ p) :
    applyEvs surf evs p = surf p := by
  induction evs generalizing surf with
  | nil => rfl
  | cons e t ih =>
    obtain ⟨px, py, c, he, hne⟩ := hp e (List.mem_cons_self e t)
    subst he
    have hstep : applyEv surf (Ev.pixel px py c) p = surf p := by
      have hnp : ¬ p = (px, py) := fun hc => hne hc.symm
      simp [applyEv, hnp]
    have htail := ih (applyEv surf (Ev.pixel px py c))
      (fun ev hev => hp ev (List.mem_cons_of_mem _ hev))
    calc applyEvs surf (Ev.pixel px py c :: t) p
        = applyEvs (applyEv surf (Ev.pixel px py c)) t p := rfl
      _ = applyEv surf (Ev.pixel px py c) p := htail
      _ = surf p := hstep

/-! Claim theorems. -/

/-- C2: for every font table and every character code outside
`[first_char, last_char)` (both bounds are the byte `font[7]` in this
source), the glyph address resolved for the code equals the glyph address
resolved for the missing-glyph code `font[_MISSING]`, in both index modes,
and the two resolutions fail or succeed identically (no error is
signaled beyond what the missing-code path itself does).  The proof uses
`get_char_addr_const`: resolution is constant in the code, so the claim
holds for every font, without the claim's (here unsatisfiable, since
`first_char` and `last_char` are the same byte) premise that the missing
code lie inside the range. -/
theorem missing_substitution_resolves_identically (font : List Nat)
    (c : Int) (f7 first1 m : Nat)
    (hlast : pyGet font LAST_CHAR = some f7)
    (hfirst : pyGet font (MISSING + 2) = some first1)
    (hm : pyGet font MISSING = some m)
    (hout : (f7 : Int) ≤ c ∨ c < (first1 : Int)) :
    _get_char_addr font c = _get_char_addr font (m : Int) :=
  get_char_addr_const font c (m : Int)

/-- Witness for C2 on the fixture `F1` (where `font[7] = 0`,
`font[5] = 0`) at the out-of-range code 300. -/
theorem missing_substitution_resolves_identically_witness :
    _get_char_addr F1 300 = _get_char_addr F1 0 :=
  missing_substitution_resolves_identically F1 300 0 0 0 (by decide)
    (by decide) (by decide) (Or.inl (by decide))

/-- C8: with `map_space` enabled the resolved width of a literal space
equals the resolved width of the character `'0'`, and `stringlen " "`
equals that width; with `map_space` disabled the width used for the space
is the width byte of the glyph record the font resolves for it (through
the missing-glyph substitution, which in this source applies to every
code, so all resolved widths coincide). -/
theorem space_width_policy (font : List Nat) :
    _char_width font true 32 = _char_width font true 48
    ∧ (∀ w0 : Nat, _char_width font true 48 = some w0 →
        stringlen font true [32] = some w0)
    ∧ (∀ a : Int, _get_char_addr font 32 = some a →
        _char_width font false 32 = pyGet font (a - 1)) := by
  refine ⟨char_width_const font true true 32 48, ?_, ?_⟩
  · intro w0 hw
    have h32 : _char_width font true 32 = some w0 :=
      (char_width_const font true true 32 48).trans hw
    simp [stringlen, stringlenAux, h32, bindSome]
  · intro a ha
    exact char_width_eq font false 32 a ha

/-- Witness for C8 on the fixture `F1`: both the space and `'0'` resolve
to width 6 and `stringlen " " = 6` even though no 6-wide space glyph is
stored for the space character itself. -/
theorem space_width_policy_witness :
    _char_width F1 true 32 = _char_width F1 true 48
    ∧ stringlen F1 true [32] = some 6
    ∧ _char_width F1 false 32 = pyGet F1 (11 - 1) :=
  ⟨(space_width_policy F1).1, (space_width_policy F1).2.1 6 (by decide),
   (space_width_policy F1).2.2 11 (by decide)⟩

/-- C9: a character whose resolved width is 0 is consumed with zero side
effects: no display call at all (hence neither a pixel write nor a window
set, which only happens inside the device's pixel/fill methods), the
cursor is unchanged, no wrap or scroll-clear happens, and nothing is
drawn. -/
theorem zero_width_noop (cfg : WriterCfg) (s : WriterState) (c : Int)
    (hw : _char_width cfg.font cfg.map_space c = some 0) :
    _printchar cfg s c = some (s, [], none) := by
  unfold _printchar
  rw [hw]
  simp [bindSome]

/-- Witness for C9 on the fixture `F3` (width byte 0) at cursor (5, 7). -/
theorem zero_width_noop_witness :
    _printchar cfg3 ⟨5, 7⟩ 65 = some (⟨5, 7⟩, [], none) :=
  zero_width_noop cfg3 ⟨5, 7⟩ 65 (by decide)

/-- C10: `_get_char_addr` always returns at least `font[_MAX_CHARS] + 2`,
hence never 0; consequently the empty-definition branch of `draw_char`
(return `True`) is unreachable, and a `_char_width` of 0 can only come
from a width byte whose stored value is 0 (the byte at the resolved
address minus 1). -/
theorem char_addr_lower_bound :
    (∀ (font : List Nat) (letter r : Int),
      _get_char_addr font letter = some r →
      r ≠ 0 ∧ ∀ b : Nat, pyGet font MAX_CHARS = some b → (b : Int) + 2 ≤ r)
    ∧ (∀ (cc x y : Int) (font : List Nat) (color : Nat) (bg : Option Nat)
        (ls rv : Bool) (evs : List Ev) (res : DrawResult),
        draw_char cc x y font color bg ls rv = some (evs, res) →
        res ≠ DrawResult.emptyGlyph)
    ∧ (∀ (font : List Nat) (ms : Bool) (c : Int),
        _char_width font ms c = some 0 →
        ∃ a : Int, _get_char_addr font c = some a ∧
          pyGet font (a - 1) = some 0) := by
  refine ⟨?_, ?_, ?_⟩
  · intro font letter r h
    obtain ⟨base, f7, m, hb, h7, h5, hge⟩ := get_char_addr_inv font letter r h
    refine ⟨by omega, ?_⟩
    intro b hb2
    rw [hb] at hb2
    cases hb2
    omega
  · intro cc x y font color bg ls rv evs res h
    obtain ⟨hgt, w, a, hh, ha, ha2, hw, hg, hres⟩ :=
      draw_char_inv cc x y font color bg ls rv evs res h
    rw [hres]
    intro hcontra
    cases hcontra
  · intro font ms c h
    cases ha : _get_char_addr font c with
    | none =>
      unfold _char_width at h
      rw [ha] at h
      simp [bindNone] at h
    | some a =>
      refine ⟨a, rfl, ?_⟩
      rw [← char_width_eq font ms c a ha]
      exact h

/-- Witness for C10 on the fixtures: the resolved address 11 in `F1` is at
least `font[2] + 2 = 10` and nonzero; a successful `draw_char` run on `F1`
returns a width, not the empty-glyph marker; and the zero width resolved
in `F3` comes from its stored width byte 0. -/
theorem char_addr_lower_bound_witness :
    ((11 : Int) ≠ 0 ∧ ((8 : Nat) : Int) + 2 ≤ 11)
    ∧ DrawResult.width 2 ≠ DrawResult.emptyGlyph
    ∧ (∃ a : Int, _get_char_addr F3 65 = some a ∧
        pyGet F3 (a - 1) = some 0) :=
  ⟨⟨(char_addr_lower_bound.1 F1 65 11 (by decide)).1,
    (char_addr_lower_bound.1 F1 65 11 (by decide)).2 8 (by decide)⟩,
   char_addr_lower_bound.2.1 65 0 0 F1 7 none false false []
     (DrawResult.width 2) (by decide),
   char_addr_lower_bound.2.2 F3 true 65 (by decide)⟩

/-- C1 (divergence exhibited): the claim asserts that the width returned
by `draw_char` equals the width by which `_printchar` advances the pen.
On the fixture `F1` the resolved glyph address is 11; `draw_char` reads
its width at the address itself (`font[11] = 2`) and returns 2, while
`_char_width` reads the byte at the address minus 1 (`font[10] = 6`) —
consistent with the "Skip the width byte" comment in `_get_char_addr` —
so `_printchar` advances the pen by 6 and, moreover, discards
`draw_char`'s return value entirely. -/
theorem draw_char_width_vs_advance_divergence :
    draw_char 65 0 0 F1 7 none false false = some ([], DrawResult.width 2)
    ∧ _char_width F1 true 65 = some 6
    ∧ _printchar cfg2 ⟨0, 0⟩ 65 = some (⟨6, 0⟩, [], some (0, 0))
    ∧ (2 : Nat) ≠ 6 := by decide

/-- C5 (counterexample): with font height 8, resolved width 6, on a
240 × 8 surface, printing "AB" from (238, 0) does not land `B` at (0, 0):
already `A` fails to fit (238 + 6 > 240), wraps to (0, 8), triggers the
scroll-clear (8 ≥ 8), and is drawn at (0, 0); `B` is then drawn at
(6, 0). -/
theorem scenario_AB_counterexample :
    printstring cfg1 ⟨238, 0⟩ [65, 66] =
      some (⟨12, 0⟩, [Ev.fill 0], [(65, 0, 0), (66, 6, 0)])
    ∧ ((66 : Int), (0 : Int), (0 : Int)) ∉
        [((65 : Int), (0 : Int), (0 : Int)),
         ((66 : Int), (6 : Int), (0 : Int))] := by decide

/-- C5 (amended): in the same scenario it is `A` that wraps and triggers
the scroll-clear, so the surface is cleared once (fill with the default
color 0), `A` is drawn at (0, 0) and `B` at (6, 0). -/
theorem scenario_AB_actual :
    printstring cfg1 ⟨238, 0⟩ [65, 66] =
      some (⟨12, 0⟩, [Ev.fill 0], [(65, 0, 0), (66, 6, 0)]) := by decide

/-- C6 (counterexample): drawing the 5-wide, 7-tall fixture glyph `F2`
(bitmap byte 0 is 1, all others 0) at (10, 10) in landscape mode with
transparent background lights the pixels (10, 14) and (11, 14).  Pixel
(11, 14) is the destination of source cell (row 1, col 0), whose packed
bit index `row*w + col = 5` is unset in the bitmap: the code does not read
cell bits at packed bit index `row*w + col` (it reads bit `col % 8` of
byte `(row*w + col) / 8`). -/
theorem rotated_bit_index_counterexample :
    draw_char 65 10 10 F2 7 none true false =
      some ([Ev.pixel 10 14 7, Ev.pixel 11 14 7], DrawResult.width 5)
    ∧ target 10 10 5 true 1 0 = (11, 14)
    ∧ bitAtRotatedSpec F2 12 5 1 0 = some false
    ∧ bitAtCode F2 12 7 5 true 1 0 = some true := by decide

/-- C6 (amended): in landscape ("rotated") orientation with transparent
background, every pixel a successful `draw_char` run lights comes from an
in-bounds source cell `(row, col)` whose stored bit — bit `col % 8` of
byte `(row*w + col) / 8` of the bitmap — is set, and lands at destination
`(x + row, y + w - col - 1)`; in particular cell (0, 0) of a 5-wide glyph
at (10, 10) lands at (10, 14). -/
theorem rotated_draw_characterization (cc x y : Int) (font : List Nat)
    (fg : Nat) (rv : Bool) (evs : List Ev) (res : DrawResult)
    (hgt w : Nat) (a : Int)
    (hh : pyGet font HEIGHT = some hgt)
    (ha : _get_char_addr font cc = some a)
    (hw : pyGet font a = some w)
    (hdraw : draw_char cc x y font fg none true rv = some (evs, res)) :
    ∀ ev ∈ evs, ∃ row col : Nat, row < hgt ∧ col < w ∧
      (∃ b : Nat, pyGet font (a + 1 + ((row * w + col) / 8 : Nat)) = some b ∧
        bitSet b (col % 8) = true) ∧
      ev = Ev.pixel (x + row) (y + (w : Int) - col - 1) fg := by
  intro ev hev
  obtain ⟨hgt2, w2, a2, hh2, ha2r, hge2, hw2, hg, hres⟩ :=
    draw_char_inv cc x y font fg none true rv evs res hdraw
  have e1 : hgt2 = hgt := Option.some.inj (hh2.symm.trans hh)
  have e2 : a2 = a := Option.some.inj (ha2r.symm.trans ha)
  rw [e2] at hw2
  have e3 : w2 = w := Option.some.inj (hw2.symm.trans hw)
  rw [e1, e2, e3] at hg
  obtain ⟨row, col, hrow, hcol, hbit, hev_eq⟩ :=
    drawGlyph_none_mem font (a + 1) hgt w x y fg true evs hg ev hev
  refine ⟨row, col, hrow, hcol, ?_, ?_⟩
  · unfold bitAtCode at hbit
    rw [if_pos rfl] at hbit
    cases hb : pyGet font (a + 1 + ((row * w + col) / 8 : Nat)) with
    | none => rw [hb] at hbit; cases hbit
    | some b =>
      rw [hb, Option.map_some'] at hbit
      exact ⟨b, rfl, Option.some.inj hbit⟩
  · rw [hev_eq]
    unfold target
    rw [if_pos rfl]

/-- Witness for the C6 amended theorem on the fixture `F2` at (10, 10),
applied to the second lit pixel (11, 14) of the concrete draw. -/
theorem rotated_draw_characterization_witness :
    ∃ row col : Nat, row < 7 ∧ col < 5 ∧
      (∃ b : Nat, pyGet F2 (11 + 1 + ((row * 5 + col) / 8 : Nat)) = some b ∧
        bitSet b (col % 8) = true) ∧
      Ev.pixel 11 14 7 = Ev.pixel (10 + row) (10 + (5 : Int) - col - 1) 7 :=
  rotated_draw_characterization 65 10 10 F2 7 false
    [Ev.pixel 10 14 7, Ev.pixel 11 14 7] (DrawResult.width 5) 7 5 11
    (by decide) (by decide) (by decide) (by decide)
    (Ev.pixel 11 14 7) (by decide)

/-- C7: when the background is transparent (`bgcolor = None`), a glyph
draw performs no pixel write at the destination of any in-bounds cell
whose stored bit is unset, in both orientations: applying the whole trace
of the draw to any pre-existing surface leaves that destination pixel at
its prior value. -/
theorem transparent_bg_preserves_pixels (cc x y : Int) (font : List Nat)
    (fg : Nat) (ls rv : Bool) (evs : List Ev) (res : DrawResult)
    (hgt w : Nat) (a : Int) (surf : Int × Int → Nat) (row col : Nat)
    (hh : pyGet font HEIGHT = some hgt)
    (ha : _get_char_addr font cc = some a)
    (hw : pyGet font a = some w)
    (hdraw : draw_char cc x y font fg none ls rv = some (evs, res))
    (hrow : row < hgt) (hcol : col < w)
    (hbit : bitAtCode font (a + 1) hgt w ls row col = some false) :
    applyEvs surf evs (target x y w ls row col) =
      surf (target x y w ls row col) := by
  obtain ⟨hgt2, w2, a2, hh2, ha2r, hge2, hw2, hg, hres⟩ :=
    draw_char_inv cc x y font fg none ls rv evs res hdraw
  have e1 : hgt2 = hgt := Option.some.inj (hh2.symm.trans hh)
  have e2 : a2 = a := Option.some.inj (ha2r.symm.trans ha)
  rw [e2] at hw2
  have e3 : w2 = w := Option.some.inj (hw2.symm.trans hw)
  rw [e1, e2, e3] at hg
  apply applyEvs_not_written
  intro ev hev
  obtain ⟨row', col', hrow', hcol', hbit', hev_eq⟩ :=
    drawGlyph_none_mem font (a + 1) hgt w x y fg ls evs hg ev hev
  refine ⟨(target x y w ls row' col').1, (target x y w ls row' col').2,
    fg, hev_eq, ?_⟩
  intro hcontra
  have htgt : target x y w ls row' col' = target x y w ls row col := by
    rw [← hcontra]
  obtain ⟨hr, hc⟩ := target_inj x y w ls row' col' row col htgt
  subst hr
  subst hc
  rw [hbit] at hbit'
  cases hbit'

/-- Witness for C7 on the fixture `F2`: over a surface pre-filled red,
the landscape draw at (10, 10) leaves the destination of the unset-bit
cell (0, 1), pixel (10, 13), red. -/
theorem transparent_bg_preserves_pixels_witness :
    applyEvs surfRed [Ev.pixel 10 14 7, Ev.pixel 11 14 7]
        (target 10 10 5 true 0 1) = 63488 :=
  transparent_bg_preserves_pixels 65 10 10 F2 7 true false
    [Ev.pixel 10 14 7, Ev.pixel 11 14 7] (DrawResult.width 5) 7 5 11
    surfRed 0 1 (by decide) (by decide) (by decide) (by decide)
    (by decide) (by decide) (by decide)

/-- C4: if the character's nonzero resolved width does not fit
(`pen_x + w > surface.width`), then when the character is drawn it is
drawn at `pen_x = 0` with `pen_y` either advanced by one font height or
reset to 0 by the scroll-clear (which fires exactly when the advanced
`pen_y` reaches the surface height). -/
theorem wrap_law (cfg : WriterCfg) (s : WriterState) (c : Int) (w : Nat)
    (s' : WriterState) (evs : List Ev) (d : Option (Int × Int)) (dx dy : Int)
    (hw : _char_width cfg.font cfg.map_space c = some w)
    (hw0 : w ≠ 0)
    (hover : s.x + (w : Int) > cfg.device.width)
    (hrun : _printchar cfg s c = some (s', evs, d))
    (hd : d = some (dx, dy)) :
    dx = 0 ∧ (dy = s.y + (cfg.height : Int) ∨
      (dy = 0 ∧ (cfg.device.height : Int) ≤ s.y + (cfg.height : Int))) := by
  subst hd
  by_cases hscroll : s.y + (cfg.height : Int) ≥ cfg.device.height
  · have hws : wrapStep cfg s w =
        (⟨0, 0⟩, if cfg.device.hasFill then [Ev.fill (cfg.bgcolor.getD 0)]
          else []) := by
      simp [wrapStep, hover, hscroll, clear_screen]
    by_cases hc2 : (0 : Int) ≥ cfg.device.height
    · have hpc := printchar_clipped cfg s c w 0 0 _ hw hw0 hws (Or.inr hc2)
      rw [hpc] at hrun
      simp at hrun
    · have hc1 : ¬ (0 : Int) + (cfg.height : Int) < 0 := by omega
      have hpd := printchar_draw cfg s c w 0 0 _ hw hw0 hws hc1 hc2
      rw [hpd] at hrun
      cases hdc : draw_char c 0 0 cfg.font cfg.text_color cfg.bgcolor
          cfg.landscape cfg.rev with
      | none => rw [hdc] at hrun; cases hrun
      | some er =>
        rw [hdc] at hrun
        simp only [Option.map_some', Option.some.injEq, Prod.mk.injEq] at hrun
        obtain ⟨-, -, h3, h4⟩ := hrun
        exact ⟨h3.symm, Or.inr ⟨h4.symm, hscroll⟩⟩
  · have hws : wrapStep cfg s w = (⟨0, s.y + cfg.height⟩, []) := by
      simp [wrapStep, hover, hscroll]
    by_cases hc1 : s.y + (cfg.height : Int) + (cfg.height : Int) < 0
    · have hpc := printchar_clipped cfg s c w 0 (s.y + cfg.height) _ hw hw0
        hws (Or.inl hc1)
      rw [hpc] at hrun
      simp at hrun
    · have hpd := printchar_draw cfg s c w 0 (s.y + cfg.height) _ hw hw0 hws
        hc1 hscroll
      rw [hpd] at hrun
      cases hdc : draw_char c 0 (s.y + cfg.height) cfg.font cfg.text_color
          cfg.bgcolor cfg.landscape cfg.rev with
      | none => rw [hdc] at hrun; cases hrun
      | some er =>
        rw [hdc] at hrun
        simp only [Option.map_some', Option.some.injEq, Prod.mk.injEq] at hrun
        obtain ⟨-, -, h3, h4⟩ := hrun
        exact ⟨h3.symm, Or.inl h4.symm⟩

/-- Witness for C4 on the tall display: from (238, 0), the character
wraps and is drawn at (0, 8) with the pen row advanced by the font
height 8. -/
theorem wrap_law_witness :
    (0 : Int) = 0 ∧ ((8 : Int) = (0 : Int) + ((8 : Nat) : Int) ∨
      ((8 : Int) = 0 ∧ ((320 : Int) : Int) ≤ (0 : Int) + ((8 : Nat) : Int))) :=
  wrap_law cfg2 ⟨238, 0⟩ 65 6 ⟨6, 8⟩ [] (some (0, 8)) 0 8 (by decide)
    (by decide) (by decide) (by decide) rfl

/-- C3: if a character with nonzero resolved width wraps and the advanced
`pen_y` reaches the surface height, then (on a device with a `fill`
method of positive height) the whole surface is filled with the
background color — or the default 0 when the background is transparent —
before anything else, and the character is drawn at the reset cursor
(0, 0). -/
theorem scroll_clear_before_draw (cfg : WriterCfg) (s : WriterState)
    (c : Int) (w : Nat) (s' : WriterState) (evs : List Ev)
    (d : Option (Int × Int))
    (hw : _char_width cfg.font cfg.map_space c = some w)
    (hw0 : w ≠ 0)
    (hover : s.x + (w : Int) > cfg.device.width)
    (hscroll : s.y + (cfg.height : Int) ≥ cfg.device.height)
    (hfill : cfg.device.hasFill = true)
    (hpos : (0 : Int) < cfg.device.height)
    (hrun : _printchar cfg s c = some (s', evs, d)) :
    (∃ rest : List Ev, evs = Ev.fill (cfg.bgcolor.getD 0) :: rest)
    ∧ d = some (0, 0) := by
  have hws : wrapStep cfg s w = (⟨0, 0⟩, [Ev.fill (cfg.bgcolor.getD 0)]) := by
    simp [wrapStep, hover, hscroll, clear_screen, hfill]
  have hc1 : ¬ (0 : Int) + (cfg.height : Int) < 0 := by omega
  have hc2 : ¬ (0 : Int) ≥ cfg.device.height := by omega
  have hpd := printchar_draw cfg s c w 0 0 _ hw hw0 hws hc1 hc2
  rw [hpd] at hrun
  cases hdc : draw_char c 0 0 cfg.font cfg.text_color cfg.bgcolor
      cfg.landscape cfg.rev with
  | none => rw [hdc] at hrun; cases hrun
  | some er =>
    rw [hdc] at hrun
    simp only [Option.map_some', Option.some.injEq, Prod.mk.injEq] at hrun
    obtain ⟨-, h2, h3⟩ := hrun
    exact ⟨⟨er.1, h2.symm⟩, h3.symm⟩

/-- Witness for C3 on the short display: from (238, 0) the surface is
filled with the default color 0 and the character drawn at (0, 0). -/
theorem scroll_clear_before_draw_witness :
    (∃ rest : List Ev, [Ev.fill 0] = Ev.fill (cfg1.bgcolor.getD 0) :: rest)
    ∧ (some ((0 : Int), (0 : Int)) : Option (Int × Int)) = some (0, 0) :=
  scroll_clear_before_draw cfg1 ⟨238, 0⟩ 65 6 ⟨6, 0⟩ [Ev.fill 0]
    (some (0, 0)) (by decide) (by decide) (by decide) (by decide)
    (by decide) (by decide) (by decide)

end Writerpy
